import Mathlib

/-!
Shallow embedding of `scripts/task_performance.py`, an interactive console
utility that collects per-task performance data (successes, attempts, a
derived success rate) and writes the session's records to a CSV file.

Console interaction is modelled by passing the operator's input lines as an
explicit `List String`; each reading primitive consumes a prefix of that list
and returns the remaining lines.  Printed output, where a claim needs it, is
modelled as the list of strings passed to `print`.  Python `float` division is
modelled by exact rational division (`Rat`).
-/

namespace TaskPerformance

/-- The ASCII whitespace characters stripped by Python `str.strip()` (and by
`int()` before parsing). -/
def isPyWhitespace (c : Char) : Bool :=
  c = ' ' || c = '\t' || c = '\n' || c = '\x0d' || c = '\x0b' || c = '\x0c'

/-- Python `str.strip()` on a list of characters: drop whitespace from both
ends. -/
def pyStripChars (cs : List Char) : List Char :=
  ((cs.dropWhile isPyWhitespace).reverse.dropWhile isPyWhitespace).reverse

/-- Python `str.strip()`. -/
def pyStrip (s : String) : String :=
  ⟨pyStripChars s.data⟩

/-- Python `str.lower()` restricted to ASCII, which is all this program
feeds it. -/
def pyLower (s : String) : String :=
  ⟨s.data.map Char.toLower⟩

/-- Continuation of the digit part of a Python integer literal, after at
least one digit has been seen: either the end, another digit, or a single
underscore that must be followed by a digit. -/
def digitsTail : List Char → Bool
  | [] => true
  | c :: rest =>
    if c = '_' then
      match rest with
      | [] => false
      | c2 :: rest2 => c2.isDigit && digitsTail rest2
    else c.isDigit && digitsTail rest

/-- The digit part of a Python integer literal: a nonempty digit sequence
in which single underscores may stand between digits. -/
def digitGroupsOk : List Char → Bool
  | [] => false
  | c :: rest => c.isDigit && digitsTail rest

/-- Numeric value of a digit string (most significant first). -/
def digitsVal (cs : List Char) : Nat :=
  cs.foldl (fun acc c => 10 * acc + (c.toNat - 48)) 0

/-- Python `int(s)`: strip whitespace, accept one optional sign, then a
nonempty digit sequence possibly grouped by single underscores; `none` when
`int` would raise `ValueError`. -/
def pyParseInt (s : String) : Option Int :=
  match pyStripChars s.data with
  | [] => none
  | c :: rest =>
    if c = '+' then
      if digitGroupsOk rest then some (digitsVal (rest.filter (· ≠ '_'))) else none
    else if c = '-' then
      if digitGroupsOk rest then some (-(digitsVal (rest.filter (· ≠ '_')) : Int)) else none
    else
      if digitGroupsOk (c :: rest) then
        some (digitsVal ((c :: rest).filter (· ≠ '_')))
      else none

/-- The fixed error message printed by `get_integer_input` on a parse
failure. -/
def integerErrorMessage : String := "Invalid input. Please enter an integer value."

/-- `get_integer_input(prompt)`: read lines until one parses as an integer.
Returns the error messages printed along the way, and — unless the input
stream runs dry, which models the real program blocking forever — the parsed
integer together with the unconsumed lines. -/
def get_integer_input : List String → List String × Option (Int × List String)
  | [] => ([], none)
  | line :: rest =>
    match pyParseInt line with
    | some v => ([], some (v, rest))
    | none =>
      let r := get_integer_input rest
      (integerErrorMessage :: r.1, r.2)

/-- The ASCII character for the decimal digit `d` (`d < 10`). -/
def digitChar (d : Nat) : Char := Char.ofNat (48 + d)

/-- Decimal rendering of a natural number, fuelled so that it computes by
kernel reduction; `fuel` bounds the number of digits produced. -/
def natReprAux : Nat → Nat → List Char
  | 0, _ => []
  | fuel + 1, n =>
    if n < 10 then [digitChar n]
    else natReprAux fuel (n / 10) ++ [digitChar (n % 10)]

/-- Decimal rendering of a natural number, as Python `str` produces it. -/
def natRepr (n : Nat) : List Char := natReprAux (n + 1) n

/-- Decimal rendering of an integer, as Python `str` produces it. -/
def intRepr (n : Int) : List Char :=
  if n < 0 then '-' :: natRepr (-n).toNat else natRepr n.toNat

/-- Python `f"{n:3d}"` for a nonnegative `n`: the decimal rendering
right-aligned in a field of width 3, padded on the left with spaces. -/
def formatNat3 (n : Nat) : List Char :=
  List.replicate (3 - (natRepr n).length) ' ' ++ natRepr n

/-- The tick line printed by `start_timer` for a given elapsed second:
`f"Elapsed time: {elapsed:3d} seconds"`. -/
def timerTickLine (elapsed : Nat) : String :=
  "Elapsed time: " ++ String.mk (formatNat3 elapsed) ++ " seconds"

/-- The tick lines printed by `start_timer`'s `for elapsed in
range(duration + 1)` loop, in order. -/
def timerTicks (duration : Nat) : List String :=
  (List.range (duration + 1)).map timerTickLine

/-- `start_timer(duration)`: the sequence of strings printed to the console
(the sleeping itself has no observable value-level effect). -/
def start_timer (duration : Nat) : List String :=
  String.mk (List.replicate 60 '-')
    :: "\nTask timer started. Please perform the task."
    :: timerTicks duration
    ++ ["\nTime is up! Please proceed with the input."]

/-- Python `s.endswith(suffix)`. -/
def pyEndsWith (s suffix : String) : Bool :=
  suffix.data.isSuffixOf s.data

/-- The filename part of `prepare_csv_filepath`: strip the operator's line,
then append `".csv"` unless the lowercased name already ends with it. -/
def prepare_csv_filename (line : String) : String :=
  let csv_filename := pyStrip line
  if pyEndsWith (pyLower csv_filename) ".csv" then csv_filename
  else csv_filename ++ ".csv"

/-- `prepare_csv_filepath()`: the operator's input line is passed explicitly
and the `data` directory (parent of the working directory joined with
`"data"`) is abstracted as `dataDir`; path joining is `"/"`-joining. -/
def prepare_csv_filepath (dataDir : String) (line : String) : String :=
  dataDir ++ "/" ++ prepare_csv_filename line

/-- `select_task(tasks)`: read lines until one selects a task or asks to
exit.  Returns `none` when the input stream runs dry (modelling the real
program blocking forever), otherwise the unconsumed lines together with
`none` for the exit sentinel or `some` selected task name. -/
def select_task (tasks : List String) : List String → Option (Option String × List String)
  | [] => none
  | line :: rest =>
    let selection := pyStrip line
    if pyLower selection = "exit" then some (none, rest)
    else
      match pyParseInt selection with
      | some task_id =>
        if 1 ≤ task_id ∧ task_id ≤ (tasks.length : Int) then
          some (some (tasks.getD (task_id - 1).toNat ""), rest)
        else select_task tasks rest
      | none => select_task tasks rest

example : pyParseInt "42" = some 42 := by decide
example : pyParseInt " -7 " = some (-7) := by decide
example : pyParseInt "1_0" = some 10 := by decide
example : pyParseInt "1__0" = none := by decide
example : pyParseInt "abc" = none := by decide
example : pyParseInt "" = none := by decide
example : pyParseInt "+3" = some 3 := by decide
example : get_integer_input ["x", "5"] = ([integerErrorMessage], some (5, [])) := by decide
example : natRepr 0 = ['0'] := by decide
example : natRepr 120 = ['1', '2', '0'] := by decide
example : timerTickLine 7 = "Elapsed time:   7 seconds" := by decide
example : prepare_csv_filename " foo " = "foo.csv" := by decide
example : prepare_csv_filename "FOO.CSV" = "FOO.CSV" := by decide
example : select_task ["a", "b"] ["0", "x", "2"] = some (some "b", []) := by decide
example : select_task ["a", "b"] [" EXIT ", "junk"] = some (none, ["junk"]) := by decide

/-- The task catalog `tasks` defined in `main`. -/
def tasks : List String :=
  ["Reach",
   "Reach with Obstacle",
   "Dual Arm Reach",
   "Dual Arm Reach with Obstacle",
   "Needle Pick",
   "Needle Handover",
   "Peg Pick",
   "Peg Transfer",
   "Peg Board Pick and Place",
   "Needle through Ring"]

/-- `task_duration_seconds` as set in `main`. -/
def task_duration_seconds : Int := 5

/-- The record appended to `data` for one task occurrence; Python's float
division is modelled as exact rational division. -/
structure TaskRecord where
  task : String
  total_success : Int
  total_attempt : Int
  success_rate : Rat
  task_duration_secs : Int
  deriving Repr, DecidableEq

/-- The dict appended to `data` in `main` for one pass of the loop,
including the divide-by-zero guard on the success rate. -/
def mkRecord (selected_task : String) (total_success total_attempt : Int) : TaskRecord :=
  { task := selected_task
    total_success := total_success
    total_attempt := total_attempt
    success_rate :=
      if total_attempt > 0 then (total_success : Rat) / (total_attempt : Rat) else 0
    task_duration_secs := task_duration_seconds }

/-- Outcome of one pass of `main`'s `while True` loop. -/
inductive StepResult where
  | ended : StepResult
  | stuck : StepResult
  | collected : TaskRecord → List String → StepResult
  deriving Repr, DecidableEq

/-- One pass of `main`'s loop: select a task (`.ended` on the exit
sentinel), consume the press-Enter line, run the timer, then read the two
counters; `.stuck` models the input stream running dry mid-interaction. -/
def sessionStep (inputs : List String) : StepResult :=
  match select_task tasks inputs with
  | none => .stuck
  | some (none, _) => .ended
  | some (some selected_task, rest) =>
    match rest with
    | [] => .stuck
    | _pressEnter :: rest2 =>
      match (get_integer_input rest2).2 with
      | none => .stuck
      | some (total_success, rest3) =>
        match (get_integer_input rest3).2 with
        | none => .stuck
        | some (total_attempt, rest4) =>
          .collected (mkRecord selected_task total_success total_attempt) rest4

/-- `main`'s loop, fuelled: the list of records appended to `data`, in
order. -/
def sessionLoop : Nat → List String → List TaskRecord
  | 0, _ => []
  | fuel + 1, inputs =>
    match sessionStep inputs with
    | .collected r rest => r :: sessionLoop fuel rest
    | _ => []

/-- Whether `main`'s loop reaches the `break` (the operator's exit) rather
than running out of input. -/
def sessionEnds : Nat → List String → Bool
  | 0, _ => false
  | fuel + 1, inputs =>
    match sessionStep inputs with
    | .collected _ rest => sessionEnds fuel rest
    | .ended => true
    | .stuck => false

/-- The session's records for a given stream of operator input lines.  Each
collected record consumes at least one line, so `inputs.length` is enough
fuel. -/
def main_records (inputs : List String) : List TaskRecord :=
  sessionLoop inputs.length inputs

/-- `main_ends`: the session reached the operator's exit. -/
def main_ends (inputs : List String) : Bool :=
  sessionEnds inputs.length inputs

/-- The `fieldnames` list defined in `main`: the fixed CSV header columns. -/
def fieldnames : List String :=
  ["Task", "Total Success", "Total attempt", "Success Rate", "Task Duration (secs)"]

/-- Rendering of a record's success rate.  Python writes `str(float)`; the
rate is modelled as an exact rational, rendered as numerator over
denominator. -/
def ratRepr (q : Rat) : List Char :=
  if q.den = 1 then intRepr q.num
  else intRepr q.num ++ '/' :: natRepr q.den

/-- The five field strings `csv.DictWriter` writes for one record, in the
`fieldnames` order, numeric values rendered by `str`. -/
def recordFields (r : TaskRecord) : List String :=
  [r.task,
   String.mk (intRepr r.total_success),
   String.mk (intRepr r.total_attempt),
   String.mk (ratRepr r.success_rate),
   String.mk (intRepr r.task_duration_secs)]

/-- Whether the `csv` module's minimal quoting must quote a field: it
contains the delimiter, the quote character, or a line-terminator
character. -/
def csvNeedsQuote (cs : List Char) : Bool :=
  cs.any fun c => c = ',' || c = '"' || c = '\x0d' || c = '\n'

/-- One CSV field as the `csv` module emits it (excel dialect, minimal
quoting, quote characters doubled inside quoted fields). -/
def csvField (s : String) : List Char :=
  if csvNeedsQuote s.data then
    '"' :: (s.data.map fun c => if c = '"' then ['"', '"'] else [c]).flatten ++ ['"']
  else s.data

/-- The characters of one CSV row without its terminator: the fields joined
by the `','` delimiter. -/
def csvLine (fields : List String) : List Char :=
  (List.intersperse [','] (fields.map csvField)).flatten

/-- The `csv` module's line terminator for the default (excel) dialect. -/
def crlf : List Char := ['\x0d', '\n']

/-- One terminated CSV row. -/
def csvRow (fields : List String) : List Char :=
  csvLine fields ++ crlf

/-- The full file content the writer produces: the header row from
`writeheader()`, then one row per record from `writerows(data)`, in
order. -/
def writerOutput (records : List TaskRecord) : List Char :=
  csvRow fieldnames ++ (records.map fun r => csvRow (recordFields r)).flatten

/-- One step of splitting file content at `"\r\n"` terminators, applied by
`List.foldr` from the right: `acc` is the split of the remaining content,
whose first line starts with `'\n'` exactly when that `'\n'` could complete
a terminator with a preceding `'\x0d'`. -/
def splitStep (c : Char) (acc : List (List Char)) : List (List Char) :=
  match acc with
  | [] => [[c]]
  | l :: ls =>
    if c = '\x0d' ∧ l.head? = some '\n' then [] :: l.tail :: ls
    else (c :: l) :: ls

/-- Split file content into lines at `"\r\n"` terminators. -/
def splitCRLF (cs : List Char) : List (List Char) :=
  cs.foldr splitStep [[]]

/-- Read file content back as its terminated lines: every written row ends
in a terminator, so the split's trailing fragment after the last terminator
is dropped. -/
def readLines (cs : List Char) : List (List Char) :=
  (splitCRLF cs).dropLast

example : splitCRLF ['a', '\x0d', '\n', 'b'] = [['a'], ['b']] := by decide
example : readLines (csvRow ["a", "b"]) = [['a', ',', 'b']] := by decide
example : readLines [] = [] := by decide

/-- Python `try`: the body's value, or the handler applied to the raised
exception. -/
def pyTry {α : Type} (body : Except String α) (handler : String → α) : α :=
  match body with
  | .ok a => a
  | .error e => handler e

/-- The message `main` prints after attempting the final CSV write, with
the outcome of the open-and-write operation abstracted as `fsOutcome`:
success reports the resolved path, failure is caught by the `except` block
and reported together with the underlying cause. -/
def writePhaseMessage (csv_filepath : String) (fsOutcome : Except String Unit) : String :=
  pyTry
    (fsOutcome.map fun _ =>
      "\nData has been successfully saved to '" ++ csv_filepath ++ "'.")
    (fun e => "An error occurred while writing to the CSV file: " ++ e)

/-- End-to-end result of `main` past the collection loop: the records and
the final console message, inside `Except` whose `.error` would mean an
exception escaping `main`. -/
def mainRun (inputs : List String) (csv_filepath : String)
    (fsOutcome : Except String Unit) : Except String (List TaskRecord × String) :=
  .ok (main_records inputs, writePhaseMessage csv_filepath fsOutcome)

/-- An input line `select_task` rejects and re-prompts on: not the exit
sentinel, and not parsing to an id inside `[1, len(tasks)]`. -/
def invalidSelection (ts : List String) (line : String) : Prop :=
  pyLower (pyStrip line) ≠ "exit" ∧
  ∀ task_id, pyParseInt (pyStrip line) = some task_id →
    ¬(1 ≤ task_id ∧ task_id ≤ (ts.length : Int))

/-- Spec-side rendering for the amended C4: the elapsed seconds
right-aligned in a field of width 3, padded on the left with spaces. -/
def alignedWidth3 (n : Nat) : List Char :=
  if n < 10 then ' ' :: ' ' :: natRepr n
  else if n < 100 then ' ' :: natRepr n
  else natRepr n

/-- Spec-side rendering for C4 as written: the elapsed seconds zero-padded
to 3 digits. -/
def zeroPad3 (n : Nat) : List Char :=
  List.replicate (3 - (natRepr n).length) '0' ++ natRepr n

/-- The tick line C4 as written would require: elapsed seconds zero-padded
to 3 digits. -/
def zeroPaddedTickLine (elapsed : Nat) : String :=
  "Elapsed time: " ++ String.mk (zeroPad3 elapsed) ++ " seconds"

/-- A character that triggers neither CSV quoting nor line splitting. -/
def csvPlainChar (c : Char) : Bool :=
  !(c = ',' || c = '"' || c = '\x0d' || c = '\n')

/-! ## Helper lemmas -/

theorem get_integer_input_consumes (inputs : List String) (v : Int) (rest : List String)
    (h : (get_integer_input inputs).2 = some (v, rest)) : rest.length < inputs.length := by
  induction inputs with
  | nil => simp [get_integer_input] at h
  | cons line tl ih =>
    rw [get_integer_input] at h
    cases hp : pyParseInt line with
    | some w =>
      rw [hp] at h
      simp at h
      simp [h.2]
    | none =>
      rw [hp] at h
      simp at h
      exact Nat.lt_succ_of_lt (ih h)

theorem select_task_consumes (ts inputs : List String) (res : Option String)
    (rest : List String) (h : select_task ts inputs = some (res, rest)) :
    rest.length < inputs.length := by
  induction inputs with
  | nil => simp [select_task] at h
  | cons line tl ih =>
    rw [select_task] at h
    by_cases he : pyLower (pyStrip line) = "exit"
    · simp only [he, if_pos rfl] at h
      simp at h
      simp [h.2]
    · rw [if_neg he] at h
      cases hp : pyParseInt (pyStrip line) with
      | some task_id =>
        rw [hp] at h
        simp only [] at h
        by_cases hr : 1 ≤ task_id ∧ task_id ≤ (ts.length : Int)
        · rw [if_pos hr] at h
          simp at h
          simp [h.2]
        · rw [if_neg hr] at h
          exact Nat.lt_succ_of_lt (ih h)
      | none =>
        rw [hp] at h
        exact Nat.lt_succ_of_lt (ih h)

theorem sessionStep_collected (inputs : List String) (r : TaskRecord) (rest : List String)
    (h : sessionStep inputs = .collected r rest) :
    (∃ t s a, r = mkRecord t s a) ∧ rest.length < inputs.length := by
  rw [sessionStep] at h
  split at h
  · exact absurd h (by simp)
  · exact absurd h (by simp)
  · rename_i selected rest1 hsel
    split at h
    · exact absurd h (by simp)
    · rename_i pressEnter rest2
      split at h
      · exact absurd h (by simp)
      · rename_i ts1 rest3 hg1
        split at h
        · exact absurd h (by simp)
        · rename_i ta rest4 hg2
          rw [StepResult.collected.injEq] at h
          obtain ⟨hr, hrest⟩ := h
          subst hr; subst hrest
          refine ⟨⟨selected, ts1, ta, rfl⟩, ?_⟩
          have h1 := select_task_consumes tasks inputs (some selected) (pressEnter :: rest2) hsel
          have h2 := get_integer_input_consumes rest2 ts1 rest3 hg1
          have h3 := get_integer_input_consumes rest3 ta rest4 hg2
          simp at h1
          omega

theorem sessionLoop_mem (fuel : Nat) :
    ∀ inputs r, r ∈ sessionLoop fuel inputs → ∃ t s a, r = mkRecord t s a := by
  induction fuel with
  | zero => intro inputs r h; simp [sessionLoop] at h
  | succ n ih =>
    intro inputs r h
    rw [sessionLoop] at h
    cases hs : sessionStep inputs with
    | ended => rw [hs] at h; simp at h
    | stuck => rw [hs] at h; simp at h
    | collected r' rest =>
      rw [hs] at h
      simp at h
      rcases h with h | h
      · subst h; exact (sessionStep_collected inputs r rest hs).1
      · exact ih rest r h

theorem digitChar_facts :
    ∀ d, d < 10 →
      (digitChar d).isDigit = true ∧
      isPyWhitespace (digitChar d) = false ∧
      digitChar d ≠ '_' ∧
      Char.toLower (digitChar d) = digitChar d ∧
      (digitChar d).toNat = 48 + d ∧
      digitChar d ≠ '+' ∧ digitChar d ≠ '-' ∧ digitChar d ≠ 'e' ∧
      csvPlainChar (digitChar d) = true := by decide

theorem natReprAux_congr : ∀ f g n, n < f → n < g → natReprAux f n = natReprAux g n := by
  intro f
  induction f with
  | zero => intro g n hf; omega
  | succ f' ih =>
    intro g n hf hg
    cases g with
    | zero => omega
    | succ g' =>
      rw [natReprAux, natReprAux]
      by_cases h10 : n < 10
      · rw [if_pos h10, if_pos h10]
      · rw [if_neg h10, if_neg h10]
        have hdiv : n / 10 < n := Nat.div_lt_self (by omega) (by omega)
        rw [ih g' (n / 10) (by omega) (by omega)]

theorem natRepr_lt10 (n : Nat) (h : n < 10) : natRepr n = [digitChar n] := by
  rw [natRepr, natReprAux, if_pos h]

theorem natRepr_ge10 (n : Nat) (h : 10 ≤ n) :
    natRepr n = natRepr (n / 10) ++ [digitChar (n % 10)] := by
  rw [natRepr, natReprAux, if_neg (by omega)]
  have hdiv : n / 10 < n := Nat.div_lt_self (by omega) (by omega)
  rw [natReprAux_congr n (n / 10 + 1) (n / 10) (by omega) (by omega)]
  rfl

theorem natRepr_mem (n : Nat) : ∀ c ∈ natRepr n, ∃ d, d < 10 ∧ c = digitChar d := by
  induction n using Nat.strong_induction_on with
  | _ n ih =>
    by_cases h10 : n < 10
    · rw [natRepr_lt10 n h10]
      intro c hc
      rw [List.mem_singleton] at hc
      exact ⟨n, h10, hc⟩
    · rw [natRepr_ge10 n (by omega)]
      intro c hc
      rcases List.mem_append.mp hc with hc | hc
      · exact ih (n / 10) (Nat.div_lt_self (by omega) (by omega)) c hc
      · rw [List.mem_singleton] at hc
        exact ⟨n % 10, Nat.mod_lt n (by omega), hc⟩

theorem natRepr_ne_nil (n : Nat) : natRepr n ≠ [] := by
  by_cases h10 : n < 10
  · rw [natRepr_lt10 n h10]; simp
  · rw [natRepr_ge10 n (by omega)]; simp

theorem dropWhile_eq_self_of (p : Char → Bool) (l : List Char)
    (h : ∀ c ∈ l, p c = false) : l.dropWhile p = l := by
  cases l with
  | nil => rfl
  | cons c rest =>
    rw [List.dropWhile_cons, h c (List.mem_cons_self c rest)]
    simp

theorem pyStripChars_eq_self (l : List Char)
    (h : ∀ c ∈ l, isPyWhitespace c = false) : pyStripChars l = l := by
  rw [pyStripChars, dropWhile_eq_self_of _ _ h,
    dropWhile_eq_self_of _ _ (fun c hc => h c (List.mem_reverse.mp hc)),
    List.reverse_reverse]

theorem digitsTail_of_digits (l : List Char) (h : ∀ c ∈ l, c.isDigit = true) :
    digitsTail l = true := by
  induction l with
  | nil => rfl
  | cons c rest ih =>
    have hc := h c (List.mem_cons_self c rest)
    have hne : c ≠ '_' := by intro e; rw [e] at hc; simp at hc
    conv_lhs => rw [digitsTail.eq_def]
    simp only []
    rw [if_neg hne, hc, ih fun t ht => h t (List.mem_cons_of_mem c ht)]
    rfl

theorem digitGroupsOk_of_digits (l : List Char) (hne : l ≠ [])
    (h : ∀ c ∈ l, c.isDigit = true) : digitGroupsOk l = true := by
  cases l with
  | nil => exact absurd rfl hne
  | cons c rest =>
    rw [digitGroupsOk, h c (List.mem_cons_self c rest),
      digitsTail_of_digits rest fun t ht => h t (List.mem_cons_of_mem c ht)]
    rfl

theorem natRepr_all_digits (n : Nat) : ∀ c ∈ natRepr n, c.isDigit = true := by
  intro c hc
  obtain ⟨d, hd, rfl⟩ := natRepr_mem n c hc
  exact (digitChar_facts d hd).1

theorem digitsVal_natRepr (n : Nat) : digitsVal (natRepr n) = n := by
  induction n using Nat.strong_induction_on with
  | _ n ih =>
    by_cases h10 : n < 10
    · rw [natRepr_lt10 n h10]
      simp [digitsVal, (digitChar_facts n h10).2.2.2.2.1]
    · rw [natRepr_ge10 n (by omega)]
      have hmod : n % 10 < 10 := Nat.mod_lt n (by omega)
      rw [digitsVal, List.foldl_append]
      have := ih (n / 10) (Nat.div_lt_self (by omega) (by omega))
      rw [digitsVal] at this
      simp only [List.foldl_cons, List.foldl_nil, this,
        (digitChar_facts (n % 10) hmod).2.2.2.2.1]
      omega

theorem pyStrip_natRepr (n : Nat) : pyStripChars (natRepr n) = natRepr n := by
  apply pyStripChars_eq_self
  intro c hc
  obtain ⟨d, hd, rfl⟩ := natRepr_mem n c hc
  exact (digitChar_facts d hd).2.1

theorem pyParseInt_natRepr (n : Nat) : pyParseInt (String.mk (natRepr n)) = some (n : Int) := by
  rw [pyParseInt]
  show (match pyStripChars (natRepr n) with
    | [] => none
    | c :: rest => _) = some (n : Int)
  rw [pyStrip_natRepr]
  obtain ⟨c, rest, hl⟩ := List.exists_cons_of_ne_nil (natRepr_ne_nil n)
  rw [hl]
  have hcmem : c ∈ natRepr n := by rw [hl]; exact List.mem_cons_self c rest
  obtain ⟨d, hd, hcd⟩ := natRepr_mem n c hcmem
  have hplus : c ≠ '+' := by rw [hcd]; exact (digitChar_facts d hd).2.2.2.2.2.1
  have hminus : c ≠ '-' := by rw [hcd]; exact (digitChar_facts d hd).2.2.2.2.2.2.1
  simp only [if_neg hplus, if_neg hminus]
  have hok : digitGroupsOk (c :: rest) = true := by
    rw [← hl]
    exact digitGroupsOk_of_digits _ (natRepr_ne_nil n) (natRepr_all_digits n)
  rw [hok]
  have hfilter : (c :: rest).filter (· ≠ '_') = c :: rest := by
    rw [List.filter_eq_self]
    intro a ha
    rw [← hl] at ha
    obtain ⟨d', hd', rfl⟩ := natRepr_mem n a ha
    simpa using (digitChar_facts d' hd').2.2.1
  rw [if_pos rfl, hfilter, ← hl, digitsVal_natRepr]

theorem map_eq_self_of {α : Type} (f : α → α) (l : List α)
    (h : ∀ a ∈ l, f a = a) : l.map f = l := by
  induction l with
  | nil => rfl
  | cons a rest ih =>
    rw [List.map_cons, h a (List.mem_cons_self a rest),
      ih fun t ht => h t (List.mem_cons_of_mem a ht)]

theorem pyLower_natRepr (n : Nat) :
    pyLower (String.mk (natRepr n)) = String.mk (natRepr n) := by
  rw [pyLower]
  show String.mk ((natRepr n).map Char.toLower) = String.mk (natRepr n)
  congr 1
  apply map_eq_self_of
  intro c hc
  obtain ⟨d, hd, rfl⟩ := natRepr_mem n c hc
  exact (digitChar_facts d hd).2.2.2.1

theorem natRepr_ne_exit (n : Nat) : pyLower (String.mk (natRepr n)) ≠ "exit" := by
  rw [pyLower_natRepr]
  intro e
  have hdata : natRepr n = ['e', 'x', 'i', 't'] := congrArg String.data e
  have he : 'e' ∈ natRepr n := by rw [hdata]; simp
  obtain ⟨d, hd, hcd⟩ := natRepr_mem n 'e' he
  exact (digitChar_facts d hd).2.2.2.2.2.2.2.1 hcd.symm

theorem select_task_skip (ts : List String) (line : String) (rest : List String)
    (h : invalidSelection ts line) :
    select_task ts (line :: rest) = select_task ts rest := by
  rw [select_task]
  rw [if_neg h.1]
  cases hp : pyParseInt (pyStrip line) with
  | none => simp only [hp]
  | some task_id =>
    simp only [hp]
    rw [if_neg (h.2 task_id hp)]

theorem select_task_skip_all (ts bad : List String)
    (h : ∀ s ∈ bad, invalidSelection ts s) (rest : List String) :
    select_task ts (bad ++ rest) = select_task ts rest := by
  induction bad with
  | nil => rfl
  | cons line tl ih =>
    rw [List.cons_append,
      select_task_skip ts line (tl ++ rest) (h line (List.mem_cons_self line tl)),
      ih fun s hs => h s (List.mem_cons_of_mem line hs)]

theorem pyStrip_mk_natRepr (n : Nat) :
    pyStrip (String.mk (natRepr n)) = String.mk (natRepr n) := by
  rw [pyStrip]
  show String.mk (pyStripChars (natRepr n)) = _
  rw [pyStrip_natRepr]

theorem natRepr_length_pos (n : Nat) : 1 ≤ (natRepr n).length :=
  List.length_pos.mpr (natRepr_ne_nil n)

theorem natRepr_length_ge2 (n : Nat) (h : 10 ≤ n) : 2 ≤ (natRepr n).length := by
  rw [natRepr_ge10 n h, List.length_append]
  have := natRepr_length_pos (n / 10)
  simp only [List.length_cons, List.length_nil]
  omega

theorem natRepr_length_ge3 (n : Nat) (h : 100 ≤ n) : 3 ≤ (natRepr n).length := by
  rw [natRepr_ge10 n (by omega), List.length_append]
  have h10 : 10 ≤ n / 10 := by omega
  have := natRepr_length_ge2 (n / 10) h10
  simp only [List.length_cons, List.length_nil]
  omega

theorem formatNat3_eq_aligned (n : Nat) : formatNat3 n = alignedWidth3 n := by
  rw [formatNat3, alignedWidth3]
  by_cases h1 : n < 10
  · rw [if_pos h1, natRepr_lt10 n h1]
    rfl
  · rw [if_neg h1]
    by_cases h2 : n < 100
    · rw [if_pos h2]
      have hlen : (natRepr n).length = 2 := by
        rw [natRepr_ge10 n (by omega), List.length_append,
          natRepr_lt10 (n / 10) (by omega)]
        rfl
      rw [hlen]
      rfl
    · rw [if_neg h2]
      rw [Nat.sub_eq_zero_of_le (natRepr_length_ge3 n (by omega))]
      rfl

/-! ## Claims -/

/-- C2: after any run of invalid attempts in the same call, the Task
Selector still maps the decimal string of `i` (`1 ≤ i ≤ N`) to the `i`-th
catalog entry (1-indexed), treats any line whose stripped, lowercased form
is the exit sentinel as the end-signal, rejects and re-prompts on `"0"`,
`"N+1"` and every non-integer line, and a rejected line just recurses on
the remaining input. -/
theorem select_task_spec (ts : List String) (bad rest : List String)
    (hbad : ∀ s ∈ bad, invalidSelection ts s) :
    (∀ line, pyLower (pyStrip line) = "exit" →
        select_task ts (bad ++ line :: rest) = some (none, rest)) ∧
    (∀ i : Nat, 1 ≤ i → i ≤ ts.length →
        select_task ts (bad ++ String.mk (natRepr i) :: rest) =
          some (some (ts.getD (i - 1) ""), rest)) ∧
    invalidSelection ts (String.mk (natRepr 0)) ∧
    invalidSelection ts (String.mk (natRepr (ts.length + 1))) ∧
    (∀ line, pyParseInt (pyStrip line) = none →
        pyLower (pyStrip line) ≠ "exit" → invalidSelection ts line) ∧
    (∀ line rest', invalidSelection ts line →
        select_task ts (line :: rest') = select_task ts rest') := by
  refine ⟨?_, ?_, ?_, ?_, ?_, ?_⟩
  · intro line he
    rw [select_task_skip_all ts bad hbad, select_task]
    rw [if_pos he]
  · intro i h1 hN
    rw [select_task_skip_all ts bad hbad, select_task]
    rw [pyStrip_mk_natRepr, if_neg (natRepr_ne_exit i), pyParseInt_natRepr]
    simp only []
    rw [if_pos (by constructor <;> [exact_mod_cast h1; exact_mod_cast hN])]
    have : ((i : Int) - 1).toNat = i - 1 := by omega
    rw [this]
  · refine ⟨by rw [pyStrip_mk_natRepr]; exact natRepr_ne_exit 0, ?_⟩
    intro task_id hp
    rw [pyStrip_mk_natRepr, pyParseInt_natRepr] at hp
    have : task_id = ((0 : Nat) : Int) := (Option.some.injEq _ _ ▸ hp).symm
    rw [this]
    intro hc
    exact absurd hc.1 (by norm_num)
  · refine ⟨by rw [pyStrip_mk_natRepr]; exact natRepr_ne_exit (ts.length + 1), ?_⟩
    intro task_id hp
    rw [pyStrip_mk_natRepr, pyParseInt_natRepr] at hp
    have : task_id = ((ts.length + 1 : Nat) : Int) := (Option.some.injEq _ _ ▸ hp).symm
    rw [this]
    intro hc
    have := hc.2
    push_cast at this
    omega
  · intro line hp he
    exact ⟨he, fun task_id hcontra => by rw [hp] at hcontra; exact absurd hcontra (by simp)⟩
  · intro line rest' h
    exact select_task_skip ts line rest' h

/-- Witness for C2: with one prior invalid attempt `"0"`, input `"2"`
selects the second of two tasks, concretely. -/
theorem select_task_spec_witness :
    select_task ["alpha", "beta"] (["0"] ++ String.mk (natRepr 2) :: ["tail"]) =
      some (some ((["alpha", "beta"] : List String).getD (2 - 1) ""), ["tail"]) :=
  (select_task_spec ["alpha", "beta"] ["0"] ["tail"]
      (by
        intro s hs
        rw [List.mem_singleton] at hs
        subst hs
        refine ⟨by decide, ?_⟩
        intro task_id hp
        have : task_id = 0 := by
          have h0 : pyParseInt (pyStrip "0") = some 0 := by decide
          rw [h0] at hp
          exact (Option.some.injEq _ _ ▸ hp).symm
        rw [this]
        intro hc
        exact absurd hc.1 (by norm_num))).2.1 2 (by norm_num) (by norm_num)

/-- C3: the Integer Prompt returns `int(s)` on the first attempt for every
valid integer string `s`; on a non-integer string it prints the fixed error
message and re-prompts; any value it returns came from a successful parse
of one input line, all earlier lines having failed to parse; and on a
stream of only non-integer strings it never returns, printing one error per
line. -/
theorem get_integer_input_spec :
    (∀ s v rest, pyParseInt s = some v →
        get_integer_input (s :: rest) = ([], some (v, rest))) ∧
    (∀ s rest, pyParseInt s = none →
        get_integer_input (s :: rest) =
          (integerErrorMessage :: (get_integer_input rest).1,
           (get_integer_input rest).2)) ∧
    (∀ inputs v rest, (get_integer_input inputs).2 = some (v, rest) →
        ∃ pre s, inputs = pre ++ s :: rest ∧
          (∀ t ∈ pre, pyParseInt t = none) ∧ pyParseInt s = some v) ∧
    (∀ inputs, (∀ s ∈ inputs, pyParseInt s = none) →
        get_integer_input inputs = (inputs.map fun _ => integerErrorMessage, none)) := by
  refine ⟨?_, ?_, ?_, ?_⟩
  · intro s v rest h; simp [get_integer_input, h]
  · intro s rest h; simp [get_integer_input, h]
  · intro inputs
    induction inputs with
    | nil => intro v rest h; simp [get_integer_input] at h
    | cons s tl ih =>
      intro v rest h
      rw [get_integer_input] at h
      cases hp : pyParseInt s with
      | some w =>
        rw [hp] at h
        simp at h
        exact ⟨[], s, by simp [h.2], by simp, by rw [hp, h.1]⟩
      | none =>
        rw [hp] at h
        simp at h
        obtain ⟨pre, s', he, hpre, hs⟩ := ih v rest h
        exact ⟨s :: pre, s', by simp [he], by
          intro t ht
          rcases List.mem_cons.mp ht with h' | h'
          · rw [h', hp]
          · exact hpre t h', hs⟩
  · intro inputs h
    induction inputs with
    | nil => simp [get_integer_input]
    | cons s tl ih =>
      have hs : pyParseInt s = none := h s (List.mem_cons_self s tl)
      rw [get_integer_input, hs]
      simp only []
      rw [ih fun t ht => h t (List.mem_cons_of_mem s ht)]
      simp

/-- Witness for C3 at concrete inputs. -/
theorem get_integer_input_spec_witness :
    get_integer_input ["42", "later"] = ([], some (42, ["later"])) :=
  get_integer_input_spec.1 "42" 42 ["later"] (by decide)

/-- C1: every record the session produces obeys the divide-by-zero guard:
its success rate is `total_success / total_attempt` when `total_attempt`
is positive, and `0` whenever `total_attempt ≤ 0`, regardless of
`total_success`. -/
theorem success_rate_guard (inputs : List String) :
    ∀ r ∈ main_records inputs,
      (0 < r.total_attempt →
        r.success_rate = (r.total_success : Rat) / (r.total_attempt : Rat)) ∧
      (r.total_attempt ≤ 0 → r.success_rate = 0) := by
  intro r hr
  obtain ⟨t, s, a, rfl⟩ := sessionLoop_mem _ _ r hr
  constructor
  · intro h
    simp only [mkRecord] at h ⊢
    rw [if_pos h]
  · intro h
    simp only [mkRecord] at h ⊢
    rw [if_neg (by omega)]

/-- Witness for C1: a concrete session whose one record has attempt 4 and
success 2, with rate 2/4. -/
theorem success_rate_guard_witness :
    (mkRecord "Reach" 2 4).success_rate =
      ((mkRecord "Reach" 2 4).total_success : Rat) /
        ((mkRecord "Reach" 2 4).total_attempt : Rat) :=
  (success_rate_guard ["1", "", "2", "4", "exit"] (mkRecord "Reach" 2 4)
    (by rw [show main_records ["1", "", "2", "4", "exit"] = [mkRecord "Reach" 2 4] from rfl]
        exact List.mem_singleton.mpr rfl)).1 (by decide)

/-- C9: every record of one session carries the session's single configured
duration constant in its duration field. -/
theorem task_duration_invariant (inputs : List String) :
    ∀ r ∈ main_records inputs, r.task_duration_secs = task_duration_seconds := by
  intro r hr
  obtain ⟨t, s, a, rfl⟩ := sessionLoop_mem _ _ r hr
  rfl

/-- Witness for C9 at a concrete session. -/
theorem task_duration_invariant_witness :
    (mkRecord "Reach with Obstacle" 1 3).task_duration_secs = task_duration_seconds :=
  task_duration_invariant ["2", "", "1", "3", "exit"]
    (mkRecord "Reach with Obstacle" 1 3)
    (by rw [show main_records ["2", "", "1", "3", "exit"] =
          [mkRecord "Reach with Obstacle" 1 3] from rfl]
        exact List.mem_singleton.mpr rfl)

/-- Counterexample for C4 as stated: at duration 0, the single tick renders
the elapsed seconds space-padded (`"  0"`), not zero-padded (`"000"`). -/
theorem start_timer_zero_pad_counterexample :
    timerTicks 0 = ["Elapsed time:   0 seconds"] ∧
    zeroPaddedTickLine 0 = "Elapsed time: 000 seconds" ∧
    timerTicks 0 ≠ [zeroPaddedTickLine 0] := by decide

/-- C4 (amended): for every duration `d` the timer performs exactly `d + 1`
ticks (0 through `d`), the `i`-th tick re-renders one console line showing
the elapsed seconds right-aligned in a width-3 field padded with spaces,
and the fixed time-is-up message follows the final tick. -/
theorem start_timer_spec (d : Nat) :
    (timerTicks d).length = d + 1 ∧
    (∀ i, i < d + 1 →
      (timerTicks d).getD i "" =
        "Elapsed time: " ++ String.mk (alignedWidth3 i) ++ " seconds") ∧
    start_timer d =
      String.mk (List.replicate 60 '-')
        :: "\nTask timer started. Please perform the task."
        :: timerTicks d ++ ["\nTime is up! Please proceed with the input."] := by
  refine ⟨by simp [timerTicks], ?_, rfl⟩
  intro i hi
  rw [timerTicks, List.getD_eq_getElem _ _ (by simpa using hi)]
  simp only [List.getElem_map, List.getElem_range]
  rw [timerTickLine, formatNat3_eq_aligned]

/-- Witness for C4 (amended) at duration 0, tick 0. -/
theorem start_timer_spec_witness :
    (timerTicks 0).getD 0 "" =
      "Elapsed time: " ++ String.mk (alignedWidth3 0) ++ " seconds" :=
  (start_timer_spec 0).2.1 0 (by norm_num)

theorem dropWhile_append_all (p : Char → Bool) (pre l : List Char)
    (h : ∀ c ∈ pre, p c = true) :
    (pre ++ l).dropWhile p = l.dropWhile p := by
  induction pre with
  | nil => rfl
  | cons c tl ih =>
    rw [List.cons_append, List.dropWhile_cons, if_pos (h c (List.mem_cons_self c tl)),
      ih fun t ht => h t (List.mem_cons_of_mem c ht)]

theorem dropWhile_append_of_ne_nil (p : Char → Bool) (l post : List Char)
    (h : l.dropWhile p ≠ []) :
    (l ++ post).dropWhile p = l.dropWhile p ++ post := by
  induction l with
  | nil => exact absurd rfl h
  | cons c tl ih =>
    rw [List.cons_append]
    rw [List.dropWhile_cons] at h
    by_cases hp : p c = true
    · rw [List.dropWhile_cons, if_pos hp, List.dropWhile_cons, if_pos hp]
      rw [if_pos hp] at h
      exact ih h
    · rw [List.dropWhile_cons, if_neg hp, List.dropWhile_cons, if_neg hp,
        List.cons_append]

theorem pyStripChars_prepend (pre l : List Char)
    (h : ∀ c ∈ pre, isPyWhitespace c = true) :
    pyStripChars (pre ++ l) = pyStripChars l := by
  rw [pyStripChars, pyStripChars, dropWhile_append_all _ pre l h]

theorem pyStripChars_append (l post : List Char)
    (h : ∀ c ∈ post, isPyWhitespace c = true) :
    pyStripChars (l ++ post) = pyStripChars l := by
  by_cases hnil : l.dropWhile isPyWhitespace = []
  · have hpost : (l ++ post).dropWhile isPyWhitespace = [] := by
      rw [List.dropWhile_eq_nil_iff]
      intro c hc
      rcases List.mem_append.mp hc with hc | hc
      · exact (List.dropWhile_eq_nil_iff.mp hnil) c hc
      · exact h c hc
    rw [pyStripChars, pyStripChars, hpost, hnil]
  · rw [pyStripChars, pyStripChars, dropWhile_append_of_ne_nil _ l post hnil,
      List.reverse_append,
      dropWhile_append_all _ post.reverse _
        fun c hc => h c (List.mem_reverse.mp hc)]

theorem pyLower_append (a b : String) : pyLower (a ++ b) = pyLower a ++ pyLower b := by
  apply String.ext
  show ((a ++ b).data.map Char.toLower) = (pyLower a ++ pyLower b).data
  rw [String.data_append, String.data_append, List.map_append]
  rfl

/-- C5: the extension is appended exactly when the (stripped) entered name
does not already end in `".csv"` case-insensitively: `"foo"` gains the
extension, `"foo.csv"` and `"FOO.CSV"` are kept verbatim (casing
preserved), the resolved path always places the file name under the data
directory, and the resulting name always ends in `".csv"`
case-insensitively. -/
theorem prepare_csv_spec :
    prepare_csv_filename "foo" = "foo.csv" ∧
    prepare_csv_filename "foo.csv" = "foo.csv" ∧
    prepare_csv_filename "FOO.CSV" = "FOO.CSV" ∧
    (∀ dataDir, pyEndsWith (prepare_csv_filepath dataDir "foo") "foo.csv" = true) ∧
    (∀ dataDir, pyEndsWith (prepare_csv_filepath dataDir "FOO.CSV") "FOO.CSV" = true) ∧
    (∀ s, pyEndsWith (pyLower (pyStrip s)) ".csv" = true →
        prepare_csv_filename s = pyStrip s) ∧
    (∀ s, pyEndsWith (pyLower (pyStrip s)) ".csv" = false →
        prepare_csv_filename s = pyStrip s ++ ".csv") ∧
    (∀ s, pyEndsWith (pyLower (prepare_csv_filename s)) ".csv" = true) := by
  refine ⟨by decide, by decide, by decide, ?_, ?_, ?_, ?_, ?_⟩
  · intro dataDir
    rw [prepare_csv_filepath, show prepare_csv_filename "foo" = "foo.csv" from by decide,
      pyEndsWith, String.data_append]
    exact List.isSuffixOf_iff_suffix.mpr (List.suffix_append _ _)
  · intro dataDir
    rw [prepare_csv_filepath,
      show prepare_csv_filename "FOO.CSV" = "FOO.CSV" from by decide,
      pyEndsWith, String.data_append]
    exact List.isSuffixOf_iff_suffix.mpr (List.suffix_append _ _)
  · intro s h
    rw [prepare_csv_filename]
    simp only [h]
    rfl
  · intro s h
    rw [prepare_csv_filename]
    simp only [h]
    rfl
  · intro s
    rw [prepare_csv_filename]
    by_cases h : pyEndsWith (pyLower (pyStrip s)) ".csv" = true
    · simp only [h]
      exact h
    · simp only [Bool.not_eq_true] at h
      simp only [h]
      show pyEndsWith (pyLower (pyStrip s ++ ".csv")) ".csv" = true
      rw [pyLower_append, show pyLower ".csv" = ".csv" from by decide,
        pyEndsWith, String.data_append]
      exact List.isSuffixOf_iff_suffix.mpr (List.suffix_append _ _)

/-- Witness for C5: input already carrying the extension keeps its exact
stripped name. -/
theorem prepare_csv_spec_witness :
    prepare_csv_filename "x.csv" = pyStrip "x.csv" :=
  prepare_csv_spec.2.2.2.2.2.1 "x.csv" (by decide)

/-- C10: the entered base name is stripped of surrounding whitespace before
the extension check, so whitespace-padded input resolves like the trimmed
input, and an empty or all-whitespace input yields the file name exactly
`".csv"` in the data directory. -/
theorem prepare_csv_strip_spec :
    (∀ pre post : List Char, ∀ s : String,
        (∀ c ∈ pre, isPyWhitespace c = true) →
        (∀ c ∈ post, isPyWhitespace c = true) →
        prepare_csv_filename (String.mk (pre ++ s.data ++ post)) =
          prepare_csv_filename s) ∧
    prepare_csv_filename "" = ".csv" ∧
    (∀ s : String, (∀ c ∈ s.data, isPyWhitespace c = true) →
        prepare_csv_filename s = ".csv") ∧
    (∀ dataDir : String, ∀ s : String, (∀ c ∈ s.data, isPyWhitespace c = true) →
        prepare_csv_filepath dataDir s = dataDir ++ "/" ++ ".csv") := by
  have hstrip : ∀ s : String, (∀ c ∈ s.data, isPyWhitespace c = true) →
      pyStrip s = "" := by
    intro s h
    apply String.ext
    show pyStripChars s.data = "".data
    have : s.data.dropWhile isPyWhitespace = [] := List.dropWhile_eq_nil_iff.mpr h
    rw [pyStripChars, this]
    rfl
  have hname : ∀ s : String, (∀ c ∈ s.data, isPyWhitespace c = true) →
      prepare_csv_filename s = ".csv" := by
    intro s h
    rw [prepare_csv_filename]
    rw [hstrip s h]
    decide
  refine ⟨?_, by decide, hname, ?_⟩
  · intro pre post s hpre hpost
    have hs : pyStrip (String.mk (pre ++ s.data ++ post)) = pyStrip s := by
      apply String.ext
      show pyStripChars (String.mk (pre ++ s.data ++ post)).data = pyStripChars s.data
      show pyStripChars (pre ++ s.data ++ post) = pyStripChars s.data
      rw [List.append_assoc, pyStripChars_prepend pre _ hpre,
        pyStripChars_append _ post hpost]
    rw [prepare_csv_filename, prepare_csv_filename, hs]
  · intro dataDir s h
    rw [prepare_csv_filepath, hname s h]

/-- Witness for C10: a lone blank resolves to the bare `".csv"` file name
under the data directory. -/
theorem prepare_csv_strip_spec_witness :
    prepare_csv_filepath "parent/data" " " = "parent/data" ++ "/" ++ ".csv" :=
  prepare_csv_strip_spec.2.2.2 "parent/data" " " (by decide)

theorem sessionLoop_fuel_eq : ∀ f g inputs, inputs.length ≤ f → inputs.length ≤ g →
    sessionLoop f inputs = sessionLoop g inputs := by
  intro f
  induction f with
  | zero =>
    intro g inputs hf hg
    have hnil : inputs = [] := List.eq_nil_of_length_eq_zero (by omega)
    subst hnil
    cases g with
    | zero => rfl
    | succ g' => rfl
  | succ f' ih =>
    intro g inputs hf hg
    cases g with
    | zero =>
      have hnil : inputs = [] := List.eq_nil_of_length_eq_zero (by omega)
      subst hnil
      rfl
    | succ g' =>
      simp only [sessionLoop]
      cases hs : sessionStep inputs with
      | ended => rfl
      | stuck => rfl
      | collected r rest =>
        have hlt := (sessionStep_collected inputs r rest hs).2
        show r :: sessionLoop f' rest = r :: sessionLoop g' rest
        rw [ih g' rest (by omega) (by omega)]

/-- C7: a failure of the final open-and-write is caught at the single write
boundary: the console message reports the underlying cause, the collected
records are unaffected, and `main` still terminates normally (its result is
`.ok` for every filesystem outcome, never a propagated exception). -/
theorem write_failure_spec (inputs : List String) (path e : String) :
    writePhaseMessage path (Except.error e) =
      "An error occurred while writing to the CSV file: " ++ e ∧
    writePhaseMessage path (Except.ok ()) =
      "\nData has been successfully saved to '" ++ path ++ "'." ∧
    mainRun inputs path (Except.error e) =
      Except.ok (main_records inputs,
        "An error occurred while writing to the CSV file: " ++ e) ∧
    (∀ fsOutcome : Except String Unit, (mainRun inputs path fsOutcome).isOk = true) := by
  exact ⟨rfl, rfl, rfl, fun _ => rfl⟩

/-- C8: selecting task 1 twice and then exiting yields exactly two records,
both for the first catalog entry, with the session ending on the exit
sentinel; in general every collected step appends exactly one record in
front of the records of the remaining input. -/
theorem session_scenario_spec :
    main_records ["1", "", "2", "4", "1", "", "3", "4", "exit"] =
      [mkRecord "Reach" 2 4, mkRecord "Reach" 3 4] ∧
    main_ends ["1", "", "2", "4", "1", "", "3", "4", "exit"] = true ∧
    (mkRecord "Reach" 2 4).task = tasks.getD 0 "" ∧
    (mkRecord "Reach" 3 4).task = tasks.getD 0 "" ∧
    (∀ inputs r rest, sessionStep inputs = .collected r rest →
        main_records inputs = r :: main_records rest) := by
  refine ⟨rfl, by decide, rfl, rfl, ?_⟩
  intro inputs r rest hstep
  have hlt := (sessionStep_collected inputs r rest hstep).2
  rw [main_records, main_records]
  have hlen : inputs.length = (inputs.length - 1) + 1 := by omega
  rw [hlen, sessionLoop]
  simp only [hstep]
  rw [sessionLoop_fuel_eq (inputs.length - 1) rest.length rest (by omega) (Nat.le_refl _)]

/-- Witness for C8's step property at a concrete one-task input. -/
theorem session_scenario_spec_witness :
    main_records ["1", "", "2", "4", "exit"] =
      mkRecord "Reach" 2 4 :: main_records ["exit"] :=
  session_scenario_spec.2.2.2.2 ["1", "", "2", "4", "exit"]
    (mkRecord "Reach" 2 4) ["exit"] rfl

theorem mem_intersperse {α : Type} (sep a : α) (l : List α)
    (h : a ∈ l.intersperse sep) : a = sep ∨ a ∈ l := by
  induction l with
  | nil => simp at h
  | cons b tl ih =>
    cases tl with
    | nil =>
      simp at h
      simp [h]
    | cons c tl2 =>
      rw [List.intersperse_cons_cons] at h
      rcases List.mem_cons.mp h with h1 | h1
      · right; exact h1 ▸ List.mem_cons_self b _
      · rcases List.mem_cons.mp h1 with h2 | h2
        · left; exact h2
        · rcases ih h2 with h3 | h3
          · left; exact h3
          · right; exact List.mem_cons_of_mem b h3

theorem splitStep_ne (c : Char) (l : List Char) (ls : List (List Char))
    (hc : c ≠ '\x0d') : splitStep c (l :: ls) = (c :: l) :: ls := by
  rw [splitStep, if_neg fun hcontra => hc hcontra.1]

theorem splitStep_ne_nil (c : Char) (acc : List (List Char)) : splitStep c acc ≠ [] := by
  rw [splitStep.eq_def]
  cases acc with
  | nil => simp
  | cons l ls =>
    simp only []
    split
    · simp
    · simp

theorem splitCRLF_cons (c : Char) (cs : List Char) :
    splitCRLF (c :: cs) = splitStep c (splitCRLF cs) := rfl

theorem splitCRLF_ne_nil (cs : List Char) : splitCRLF cs ≠ [] := by
  cases cs with
  | nil => simp [splitCRLF]
  | cons c rest => rw [splitCRLF_cons]; exact splitStep_ne_nil c _

theorem splitCRLF_line (l rest : List Char) (h : ∀ c ∈ l, c ≠ '\x0d') :
    splitCRLF (l ++ crlf ++ rest) = l :: splitCRLF rest := by
  induction l with
  | nil =>
    show splitCRLF ('\x0d' :: '\n' :: rest) = [] :: splitCRLF rest
    rw [splitCRLF_cons, splitCRLF_cons]
    obtain ⟨m, ms, hm⟩ := List.exists_cons_of_ne_nil (splitCRLF_ne_nil rest)
    rw [hm, splitStep_ne '\n' m ms (by decide), splitStep, if_pos ⟨rfl, rfl⟩]
    rfl
  | cons c l ih =>
    have hc : c ≠ '\x0d' := h c (List.mem_cons_self c l)
    show splitCRLF (c :: (l ++ crlf ++ rest)) = (c :: l) :: splitCRLF rest
    rw [splitCRLF_cons, ih fun t ht => h t (List.mem_cons_of_mem c ht)]
    exact splitStep_ne c _ _ hc

theorem splitCRLF_rows (rows : List (List Char))
    (h : ∀ l ∈ rows, ∀ c ∈ l, c ≠ '\x0d') :
    splitCRLF ((rows.map (· ++ crlf)).flatten) = rows ++ [[]] := by
  induction rows with
  | nil => rfl
  | cons row rows ih =>
    rw [List.map_cons, List.flatten_cons,
      splitCRLF_line row _ (h row (List.mem_cons_self row rows)),
      ih fun l hl => h l (List.mem_cons_of_mem row hl)]
    rfl

theorem writerOutput_eq (records : List TaskRecord) :
    writerOutput records =
      ((csvLine fieldnames :: records.map fun r => csvLine (recordFields r)).map
        (· ++ crlf)).flatten := by
  rw [writerOutput, List.map_cons, List.flatten_cons, List.map_map]
  rfl

theorem csvPlainChar_ne_cr (c : Char) (h : csvPlainChar c = true) : c ≠ '\x0d' := by
  intro e
  rw [e] at h
  simp [csvPlainChar] at h

theorem csvField_plain (s : String) (h : ∀ c ∈ s.data, csvPlainChar c = true) :
    csvField s = s.data := by
  rw [csvField, if_neg]
  intro hq
  rw [csvNeedsQuote] at hq
  obtain ⟨c, hc, hbad⟩ := List.any_eq_true.mp hq
  have := h c hc
  rw [csvPlainChar, hbad] at this
  simp at this

theorem csvLine_plain (fields : List String)
    (h : ∀ f ∈ fields, ∀ c ∈ f.data, csvPlainChar c = true) :
    ∀ c ∈ csvLine fields, c ≠ '\x0d' := by
  intro c hc
  rw [csvLine] at hc
  obtain ⟨sub, hsub, hcsub⟩ := List.mem_flatten.mp hc
  rcases mem_intersperse [','] sub _ hsub with h1 | h1
  · rw [h1] at hcsub
    rw [List.mem_singleton] at hcsub
    rw [hcsub]
    decide
  · obtain ⟨f, hf, rfl⟩ := List.mem_map.mp h1
    rw [csvField_plain f (h f hf)] at hcsub
    exact csvPlainChar_ne_cr c (h f hf c hcsub)

theorem natRepr_plain (n : Nat) : ∀ c ∈ natRepr n, csvPlainChar c = true := by
  intro c hc
  obtain ⟨d, hd, rfl⟩ := natRepr_mem n c hc
  exact (digitChar_facts d hd).2.2.2.2.2.2.2.2

theorem intRepr_plain (n : Int) : ∀ c ∈ intRepr n, csvPlainChar c = true := by
  intro c hc
  rw [intRepr] at hc
  by_cases hneg : n < 0
  · rw [if_pos hneg] at hc
    rcases List.mem_cons.mp hc with h1 | h1
    · rw [h1]; decide
    · exact natRepr_plain _ c h1
  · rw [if_neg hneg] at hc
    exact natRepr_plain _ c hc

theorem ratRepr_plain (q : Rat) : ∀ c ∈ ratRepr q, csvPlainChar c = true := by
  intro c hc
  rw [ratRepr] at hc
  by_cases hden : q.den = 1
  · rw [if_pos hden] at hc
    exact intRepr_plain _ c hc
  · rw [if_neg hden] at hc
    rcases List.mem_append.mp hc with h1 | h1
    · exact intRepr_plain _ c h1
    · rcases List.mem_cons.mp h1 with h2 | h2
      · rw [h2]; decide
      · exact natRepr_plain _ c h2

theorem tasks_plain : ∀ t ∈ tasks, ∀ c ∈ t.data, csvPlainChar c = true := by decide

theorem fieldnames_plain : ∀ f ∈ fieldnames, ∀ c ∈ f.data, csvPlainChar c = true := by
  decide

theorem recordFields_plain (r : TaskRecord) (hr : r.task ∈ tasks) :
    ∀ f ∈ recordFields r, ∀ c ∈ f.data, csvPlainChar c = true := by
  intro f hf
  rw [recordFields] at hf
  simp only [List.mem_cons, List.not_mem_nil, or_false] at hf
  rcases hf with rfl | rfl | rfl | rfl | rfl
  · exact tasks_plain r.task hr
  · exact fun c hc => intRepr_plain _ c hc
  · exact fun c hc => intRepr_plain _ c hc
  · exact fun c hc => ratRepr_plain _ c hc
  · exact fun c hc => intRepr_plain _ c hc

theorem writer_read_back (records : List TaskRecord)
    (h : ∀ r ∈ records, r.task ∈ tasks) :
    readLines (writerOutput records) =
      csvLine fieldnames :: records.map fun r => csvLine (recordFields r) := by
  rw [readLines, writerOutput_eq, splitCRLF_rows, List.dropLast_concat]
  intro l hl
  rcases List.mem_cons.mp hl with rfl | hl
  · exact csvLine_plain fieldnames fieldnames_plain
  · obtain ⟨r, hr, rfl⟩ := List.mem_map.mp hl
    exact csvLine_plain (recordFields r) (recordFields_plain r (h r hr))

/-- C6: for records whose task names come from the catalog, the written
file read back as terminated lines is exactly the fixed header row followed
by one row per record in insertion order; zero records yield only the
header row, and the data-row count always equals the record count. -/
theorem result_writer_round_trip (records : List TaskRecord)
    (h : ∀ r ∈ records, r.task ∈ tasks) :
    readLines (writerOutput records) =
      csvLine fieldnames :: records.map (fun r => csvLine (recordFields r)) ∧
    readLines (writerOutput []) = [csvLine fieldnames] ∧
    (readLines (writerOutput records)).length = records.length + 1 := by
  refine ⟨writer_read_back records h, ?_, ?_⟩
  · have h0 := writer_read_back [] (by intro r hr; simp at hr)
    simpa using h0
  · rw [writer_read_back records h]
    simp

/-- Witness for C6 at one concrete record. -/
theorem result_writer_round_trip_witness :
    readLines (writerOutput [⟨"Reach", 2, 4, mkRat 1 2, 5⟩]) =
      csvLine fieldnames ::
        [(⟨"Reach", 2, 4, mkRat 1 2, 5⟩ : TaskRecord)].map
          (fun r => csvLine (recordFields r)) :=
  (result_writer_round_trip [⟨"Reach", 2, 4, mkRat 1 2, 5⟩] (by decide)).1

end TaskPerformance
